import Mathlib

/-
Verification development for the rtf2html library (rtf.js / rtf2html.js).
The RTF source text is modelled as a list of UTF-16 code units
(natural numbers), mirroring the JavaScript string the code operates on.
Tokens are modelled as the packed 32-bit integers the code builds, kept as
natural numbers below 2^32; the JavaScript signed interpretation only
matters through the masked field accessors, which are reproduced exactly.
JavaScript numeric quirks that the code relies on are modelled explicitly:
charCodeAt out of range gives NaN, and every comparison with NaN is false,
so each out-of-range read is modelled by an Option that falls through to
the branch the JavaScript would take.  Integer values are modelled as exact
integers (JavaScript doubles lose precision above 2^53; none of the
verified properties depend on that regime).
-/

set_option maxHeartbeats 1000000
set_option maxRecDepth 4000

-- ====================================================================
-- Small generic infrastructure
-- ====================================================================

/-- Model of the JavaScript charCodeAt read: some code unit, or none (NaN)
when the index is out of range. -/
def nth : List Nat → Nat → Option Nat
  | [], _ => none
  | c :: _, 0 => some c
  | _ :: rest, n + 1 => nth rest n

theorem nth_lt {l : List Nat} {i c : Nat} (h : nth l i = some c) : i < l.length := by
  induction l generalizing i with
  | nil => simp [nth] at h
  | cons x rest ih =>
    cases i with
    | zero => simp
    | succ n =>
      simp only [nth] at h
      have := ih h
      simp only [List.length_cons]
      omega

theorem nth_none {l : List Nat} {i : Nat} (h : nth l i = none) : l.length ≤ i := by
  induction l generalizing i with
  | nil => simp
  | cons x rest ih =>
    cases i with
    | zero => simp [nth] at h
    | succ n =>
      simp only [nth] at h
      have := ih h
      simp only [List.length_cons]
      omega

theorem nth_of_lt {l : List Nat} {i : Nat} (h : i < l.length) : ∃ c, nth l i = some c := by
  cases hn : nth l i with
  | some c => exact ⟨c, rfl⟩
  | none => exact absurd (nth_none hn) (by omega)

theorem drop_cons_of_nth {l : List Nat} {i c : Nat} (h : nth l i = some c) :
    l.drop i = c :: l.drop (i + 1) := by
  induction l generalizing i with
  | nil => simp [nth] at h
  | cons x rest ih =>
    cases i with
    | zero => simp [nth] at h; simp [h]
    | succ n =>
      simp only [nth] at h
      simpa using ih h

theorem nth_drop (l : List Nat) (k j : Nat) : nth (l.drop k) j = nth l (k + j) := by
  induction l generalizing k j with
  | nil => simp [nth]
  | cons x rest ih =>
    cases k with
    | zero => simp
    | succ n => simpa [Nat.succ_add] using ih n j

/-- Distributes a power-of-two remainder over bitwise or. -/
theorem lor_mod_pow (a b n : Nat) : (a ||| b) % 2 ^ n = (a % 2 ^ n) ||| (b % 2 ^ n) := by
  apply Nat.eq_of_testBit_eq
  intro j
  simp only [Nat.testBit_mod_two_pow, Nat.testBit_or]
  by_cases h : j < n <;> simp [h]

/-- Distributes a power-of-two division over bitwise or. -/
theorem lor_div_pow (a b n : Nat) : (a ||| b) / 2 ^ n = (a / 2 ^ n) ||| (b / 2 ^ n) := by
  rw [← Nat.shiftRight_eq_div_pow, ← Nat.shiftRight_eq_div_pow, ← Nat.shiftRight_eq_div_pow]
  apply Nat.eq_of_testBit_eq
  intro j
  simp [Nat.testBit_or]

theorem lor_mod256 (a b : Nat) : (a ||| b) % 256 = (a % 256) ||| (b % 256) := by
  have := lor_mod_pow a b 8
  norm_num at this
  exact this

/-- Model of the JavaScript 32-bit truncation applied by bitwise shifts on a
possibly negative integer, as an unsigned 32-bit value. -/
def js32 (x : Int) : Nat := (x % (2 ^ 32 : Int)).toNat

/-- Model of a JavaScript left shift of an unsigned value, truncated to 32 bits. -/
def shl32 (x k : Nat) : Nat := (x * 2 ^ k) % 2 ^ 32

/-- Model of the JavaScript 32-bit truncation of an unsigned value. -/
def mod32 (x : Nat) : Nat := x % 2 ^ 32

theorem shl32_mod256 (x k : Nat) (h : 8 ≤ k) : shl32 x k % 256 = 0 := by
  obtain ⟨m, rfl⟩ : ∃ m, k = 8 + m := ⟨k - 8, by omega⟩
  unfold shl32
  have h32 : (2 : Nat) ^ 32 = 256 * 2 ^ 24 := by norm_num
  have hx : x * 2 ^ (8 + m) = 256 * (x * 2 ^ m) := by ring
  rw [h32, hx, Nat.mul_mod_mul_left]
  omega

theorem mod32_mod256 (x : Nat) : mod32 x % 256 = x % 256 := by
  unfold mod32
  exact Nat.mod_mod_of_dvd x (by norm_num)

theorem js32_nonneg_eq (x : Int) (h0 : 0 ≤ x) (h1 : x < 2 ^ 32) : js32 x = x.toNat := by
  unfold js32
  rw [Int.emod_eq_of_lt h0 (by exact_mod_cast h1)]

theorem js32_mul_pow15_mod256 (v : Int) : js32 (v * 2 ^ 15) % 256 = 0 := by
  unfold js32
  have hy : 0 ≤ v * 2 ^ 15 % (2 ^ 32 : Int) := Int.emod_nonneg _ (by norm_num)
  have hd : (256 : Int) ∣ v * 2 ^ 15 % 2 ^ 32 := by
    rw [Int.emod_def]
    exact Int.dvd_sub ⟨v * 2 ^ 7, by ring⟩ (Dvd.dvd.mul_right ⟨2 ^ 24, by norm_num⟩ _)
  obtain ⟨m, hm⟩ := hd
  rw [hm] at hy ⊢
  omega

-- ====================================================================
-- Tokenizer (GetRtfTk and the token field accessors)
-- ====================================================================

/-- Count of consecutive lowercase letters a..z, mirroring the letter scan
loop at the start of the backslash branch of GetRtfTk. -/
def countLetters : List Nat → Nat
  | [] => 0
  | c :: rest => if 97 ≤ c ∧ c ≤ 122 then countLetters rest + 1 else 0

theorem countLetters_le (l : List Nat) : countLetters l ≤ l.length := by
  induction l with
  | nil => simp [countLetters]
  | cons c rest ih =>
    simp only [countLetters, List.length]
    split <;> omega

/-- Mirror of the data loop of GetRtfTk: starting from a length already
counted, extend over code units until a stop byte (backslash, brace, CR,
LF) or the 255 cap, counting only units that exist. -/
def scanData : List Nat → Nat → Nat
  | [], len => len
  | c :: rest, len =>
    if c = 92 ∨ c = 123 ∨ c = 125 ∨ c = 13 ∨ c = 10 then len
    else if len + 1 = 255 then 255
    else scanData rest (len + 1)

theorem scanData_le (l : List Nat) (len : Nat) : scanData l len ≤ len + l.length := by
  induction l generalizing len with
  | nil => simp [scanData]
  | cons c rest ih =>
    simp only [scanData, List.length_cons]
    split
    · omega
    · split
      · omega
      · have := ih (len + 1)
        omega

theorem scanData_bounds (l : List Nat) (len : Nat) (h1 : 1 ≤ len) (h2 : len ≤ 254) :
    1 ≤ scanData l len ∧ scanData l len ≤ 255 := by
  induction l generalizing len with
  | nil => simp [scanData]; omega
  | cons c rest ih =>
    simp only [scanData]
    split
    · omega
    · split
      · omega
      · exact ih (len + 1) (by omega) (by omega)

/-- Mirror of the CR and LF run loop of GetRtfTk. -/
def scanCrlf : List Nat → Nat → Nat
  | [], len => len
  | c :: rest, len =>
    if ¬ (c = 10) ∧ ¬ (c = 13) then len
    else if len + 1 = 255 then 255
    else scanCrlf rest (len + 1)

theorem scanCrlf_le (l : List Nat) (len : Nat) : scanCrlf l len ≤ len + l.length := by
  induction l generalizing len with
  | nil => simp [scanCrlf]
  | cons c rest ih =>
    simp only [scanCrlf, List.length_cons]
    split
    · omega
    · split
      · omega
      · have := ih (len + 1)
        omega

theorem scanCrlf_bounds (l : List Nat) (len : Nat) (h1 : 1 ≤ len) (h2 : len ≤ 254) :
    1 ≤ scanCrlf l len ∧ scanCrlf l len ≤ 255 := by
  induction l generalizing len with
  | nil => simp [scanCrlf]; omega
  | cons c rest ih =>
    simp only [scanCrlf]
    split
    · omega
    · split
      · omega
      · exact ih (len + 1) (by omega) (by omega)

/-- Mirror of the numeric-parameter loop of GetRtfTk: at index i the loop
has already counted len code units; each pass counts one more unit, stops
at the first unit that is neither a dash nor a digit (absorbing one extra
for a terminating space), or when the source runs out.  Returns the final
length together with the index the loop stopped at (the JavaScript slice
upper bound for the numeric value). -/
def scanNum (s : List Nat) (len i : Nat) : Nat × Nat :=
  if h : i < s.length then
    if s.get ⟨i, h⟩ ≠ 45 ∧ (s.get ⟨i, h⟩ < 48 ∨ 57 < s.get ⟨i, h⟩) then
      (if s.get ⟨i, h⟩ = 32 then len + 2 else len + 1, i)
    else scanNum s (len + 1) (i + 1)
  else (len, i)
termination_by s.length - i
decreasing_by omega

theorem scanNum_le_aux (s : List Nat) (d : Nat) :
    ∀ len i, s.length - i ≤ d → (scanNum s len i).1 ≤ len + (s.length - i) + 1 := by
  induction d with
  | zero =>
    intro len i hle
    rw [scanNum]
    split
    · omega
    · dsimp only
      omega
  | succ d ih =>
    intro len i hle
    rw [scanNum]
    split
    · split
      · dsimp only
        split <;> omega
      · have := ih (len + 1) (i + 1) (by omega)
        omega
    · dsimp only
      omega

theorem scanNum_le (s : List Nat) (len i : Nat) :
    (scanNum s len i).1 ≤ len + (s.length - i) + 1 :=
  scanNum_le_aux s (s.length - i) len i le_rfl

/-- Longest digit run at the head of a list, mirroring how parseInt stops
at the first character that is not a decimal digit. -/
def leadDigits : List Nat → List Nat
  | [] => []
  | c :: rest => if 48 ≤ c ∧ c ≤ 57 then c :: leadDigits rest else []

def digitsToNat : List Nat → Nat → Nat
  | [], acc => acc
  | c :: rest, acc => digitsToNat rest (acc * 10 + (c - 48))

/-- Model of the JavaScript parseInt on the value slice of a control word.
The slice always starts with a dash or a digit, so only those two shapes
of parseInt behaviour are reachable; none gives the NaN result. -/
def parseIntJS (l : List Nat) : Option Int :=
  match l with
  | 45 :: rest =>
    if leadDigits rest = [] then none
    else some (-(digitsToNat (leadDigits rest) 0 : Int))
  | _ =>
    if leadDigits l = [] then none
    else some ((digitsToNat (leadDigits l) 0 : Int))

/-- Hex digit decoding used by the apostrophe branch of GetRtfTk, with the
exact three ranges the source tests (0-9, A-F, a-f). -/
def hexVal (c : Nat) : Option Nat :=
  if 48 ≤ c ∧ c ≤ 57 then some (c - 48)
  else if 65 ≤ c ∧ c ≤ 70 then some (c - 55)
  else if 97 ≤ c ∧ c ≤ 102 then some (c - 87)
  else none

/-- Mirror of the apostrophe branch of GetRtfTk, entered with i at the
apostrophe.  The guard mirrors the source test (i + 2 > s.length), and the
packed Character token literal omits the 32768 value bias exactly as the
source return expression does. -/
def hexTok (s : List Nat) (i : Nat) : Nat :=
  if s.length < i + 2 then (s.length - i) + 2
  else
    match (nth s (i + 1)).bind hexVal with
    | none => 4
    | some d1 =>
      match (nth s (i + 2)).bind hexVal with
      | none => 4
      | some d2 => 2 ^ 31 ||| (d1 * 2 ^ 19 ||| (d2 * 2 ^ 15 ||| 1796))

/-- Mirror of the control-word token construction for the numeric
parameter branch, with skp equal to one plus the letter count. -/
def numTok (s : List Nat) (i n : Nat) : Nat :=
  let vi := i + 1 + n
  let r := scanNum s (1 + n) (vi + 1)
  let valChars := (s.drop vi).take (r.2 - vi)
  match parseIntJS valChars with
  | some v =>
    2 ^ 31 ||| (js32 ((v + 32768) * 2 ^ 15) ||| (shl32 (n - 1) 11 ||| (1536 ||| mod32 r.1)))
  | none =>
    2 ^ 31 ||| (shl32 (n - 1) 11 ||| (1536 ||| mod32 r.1))

/-- Mirror of the backslash branch of GetRtfTk, entered with i at the
backslash.  The condition on the single-character symbol case is kept
exactly as written in the source, including the contradictory range test
(c < 123 together with 126 < c) guarding the Invalid return. -/
def backslashTok (s : List Nat) (i : Nat) : Nat :=
  let n := countLetters (s.drop (i + 1))
  if n = 0 then
    match nth s (i + 1) with
    | some c =>
      if c = 42 then 1026
      else if c = 39 then hexTok s (i + 1)
      else if c ≠ 92 ∧ c ≠ 45 ∧ c ≠ 58 ∧ c ≠ 95 ∧ c < 123 ∧ 126 < c then 2
      else 2 ^ 31 ||| (shl32 (c + 32768) 15 ||| 1282)
    | none =>
      -- NaN read: every comparison is false, so the symbol return is taken
      -- with a NaN value whose shift contributes zero bits.
      2 ^ 31 ||| 1282
  else
    match nth s (i + 1 + n) with
    | some c =>
      if c = 45 ∨ (48 ≤ c ∧ c ≤ 57) then numTok s i n
      else if c = 32 then
        shl32 (n + 2 - 3) 11 ||| (1536 ||| mod32 (n + 2))
      else
        shl32 (n + 1 - 2) 11 ||| (1536 ||| mod32 (n + 1))
    | none =>
      shl32 (n + 1 - 2) 11 ||| (1536 ||| mod32 (n + 1))

/-- Mirror of GetRtfTk: reads the code unit at i and dispatches exactly as
the source does; an out-of-range read (NaN) matches none of the guards and
falls through to the data branch. -/
def GetRtfTk (s : List Nat) (i : Nat) : Nat :=
  match nth s i with
  | some c =>
    if c = 123 then 513
    else if c = 125 then 769
    else if c = 92 then backslashTok s i
    else if c = 10 ∨ c = 13 then
      2 ^ 31 ||| (1074169088 ||| scanCrlf (s.drop (i + 1)) 1)
    else 256 ||| scanData (s.drop (i + 1)) 1
  | none => 256 ||| scanData (s.drop (i + 1)) 1

/-- Mirror of RtfTkTyp: the three-bit type field. -/
def RtfTkTyp (t : Nat) : Nat := (t / 256) % 8

/-- Mirror of RtfTkLen: the low eight bits. -/
def RtfTkLen (t : Nat) : Nat := t % 256

/-- Mirror of RtfTkVal: none models the NaN returned when the token has no
value bit; otherwise the sixteen-bit field minus the 32768 bias. -/
def RtfTkVal (t : Nat) : Option Int :=
  if t / 2 ^ 31 = 0 then none
  else some (((t / 2 ^ 15) % 65536 : Nat) - (32768 : Int))

/-- Mirror of RtfTkCtl: none when the token is not a control word, else
the letters of the control word taken from the source. -/
def RtfTkCtl (t : Nat) (s : List Nat) (i : Nat) : Option (List Nat) :=
  if RtfTkTyp t ≠ 6 then none
  else some ((s.drop (i + 1)).take (1 + (t / 2048) % 16))

-- ====================================================================
-- Block skipper (RtfSkipB) and the full-scan cursor walk
-- ====================================================================

/-- Mirror of the RtfSkipB loop.  The JavaScript loop advances by the
low-byte length of each token, which can be zero for a control word whose
total length is a multiple of 256; in that case the JavaScript never
terminates, which the model renders as running out of fuel (none). -/
def RtfSkipBF : Nat → List Nat → Nat → Nat → Option Nat
  | 0, _, _, _ => none
  | fuel + 1, s, ps, bc =>
    if ps < s.length then
      let tk := GetRtfTk s ps
      let tl := tk % 256
      let ty := (tk / 256) % 8
      if ty = 2 then RtfSkipBF fuel s (ps + tl) (bc + 1)
      else if ty = 3 then
        if bc = 0 then some (ps + tl)
        else RtfSkipBF fuel s (ps + tl) (bc - 1)
      else RtfSkipBF fuel s (ps + tl) bc
    else some ps

/-- Specification of a skip walk written from the specification text: from
position ps at depth bc, GroupOpen tokens increment the depth, GroupClose
tokens decrement it, other tokens consume only their length, and the walk
ends just past the first GroupClose met at the initial depth, yielding r. -/
inductive SkipSpec (s : List Nat) : Nat → Nat → Nat → Prop
  | closeHere (ps bc : Nat) (h : ps < s.length)
      (hty : RtfTkTyp (GetRtfTk s ps) = 3) (hbc : bc = 0) :
      SkipSpec s ps bc (ps + RtfTkLen (GetRtfTk s ps))
  | push (ps bc r : Nat) (h : ps < s.length)
      (hty : RtfTkTyp (GetRtfTk s ps) = 2)
      (ih : SkipSpec s (ps + RtfTkLen (GetRtfTk s ps)) (bc + 1) r) :
      SkipSpec s ps bc r
  | popDeep (ps bc r : Nat) (h : ps < s.length)
      (hty : RtfTkTyp (GetRtfTk s ps) = 3) (hbc : 0 < bc)
      (ih : SkipSpec s (ps + RtfTkLen (GetRtfTk s ps)) (bc - 1) r) :
      SkipSpec s ps bc r
  | step (ps bc r : Nat) (h : ps < s.length)
      (hty2 : RtfTkTyp (GetRtfTk s ps) ≠ 2) (hty3 : RtfTkTyp (GetRtfTk s ps) ≠ 3)
      (ih : SkipSpec s (ps + RtfTkLen (GetRtfTk s ps)) bc r) :
      SkipSpec s ps bc r

/-- Full scan of a source from a starting position, advancing by the
low-byte length of each token, exactly as the main parser loop does. -/
def rtfScanF : Nat → List Nat → Nat → Nat
  | 0, _, pos => pos
  | fuel + 1, s, pos =>
    if pos < s.length then rtfScanF fuel s (pos + RtfTkLen (GetRtfTk s pos)) else pos

/-- Shapes of a source whose final token is a truncated backslash escape:
a trailing lone backslash, a trailing backslash-apostrophe, or a trailing
backslash-apostrophe with a single further code unit. -/
def OvershootCond (s : List Nat) : Prop :=
  nth s (s.length - 1) = some 92
  ∨ (nth s (s.length - 2) = some 92 ∧ nth s (s.length - 1) = some 39)
  ∨ (nth s (s.length - 3) = some 92 ∧ nth s (s.length - 2) = some 39)

-- ====================================================================
-- Parser core (handler registry, resolution, and the document step)
-- ====================================================================

/-- Registered regular-expression pattern: pid models the toString form
used for duplicate detection, test models matching against a path. -/
structure RePat where
  pid : List Nat
  test : List Nat → Bool

/-- Handler registry of the parser: dhd maps a name or path key to its
ordered handler list, dhr is the flat pattern/handler registration list.
Handlers are modelled as opaque reference identifiers. -/
structure Registry where
  dhd : List (List Nat × List Nat)
  dhr : List (RePat × Nat)

/-- First-match association lookup, modelling a JavaScript dictionary in
which every key occurs at most once. -/
def alookup {α : Type} : List (List Nat × α) → List Nat → Option α
  | [], _ => none
  | (k2, v) :: rest, k => if k2 = k then some v else alookup rest k

/-- In-place value replacement for an association list key. -/
def aupdate {α : Type} : List (List Nat × α) → List Nat → α → List (List Nat × α)
  | [], _, _ => []
  | (k2, w) :: rest, k, v =>
    if k2 = k then (k2, v) :: rest else (k2, w) :: aupdate rest k v

/-- Destination argument of HandleDest: a string key or a pattern. -/
inductive DestKey where
  | str : List Nat → DestKey
  | re : RePat → DestKey

/-- Mirror of the registry mutation of RtfParser::HandleDest: a pattern is
appended unless the same pattern text with the same handler is already
registered; a string key appends the handler to its list unless the same
reference is already there.  The caller also clears the resolution cache. -/
def handleDestReg (reg : Registry) (dest : DestKey) (h : Nat) : Registry :=
  match dest with
  | DestKey.re p =>
    if reg.dhr.any (fun pr => pr.2 == h && pr.1.pid == p.pid) then reg
    else Registry.mk reg.dhd (reg.dhr ++ [(p, h)])
  | DestKey.str k =>
    match alookup reg.dhd k with
    | none => Registry.mk (reg.dhd ++ [(k, [h])]) reg.dhr
    | some list =>
      if h ∈ list then reg
      else Registry.mk (aupdate reg.dhd k (list ++ [h])) reg.dhr

/-- Mirror of the cache-miss body of RtfParser::Handlers: concatenate the
by-name and by-path lists, then walk the pattern registrations in order,
skipping any handler reference already collected and appending those whose
pattern matches the path; an empty merged list becomes the distinguished
null (none) result. -/
def handlersCompute (reg : Registry) (name path : List Nat) : Option (List Nat) :=
  let base := ((alookup reg.dhd name).getD []) ++ ((alookup reg.dhd path).getD [])
  let dh := reg.dhr.foldl
    (fun acc pr =>
      if pr.2 ∈ acc then acc
      else if pr.1.test path then acc ++ [pr.2] else acc) base
  if dh = [] then none else some dh

/-- Resolution cache: a stored none is the distinguished no-handlers value,
distinct from an absent entry. -/
abbrev Cache : Type := List (List Nat × Option (List Nat))

/-- Mirror of RtfParser::Handlers including the cache: a present entry is
returned as is; otherwise the merged list is computed and cached under the
path.  The hit and miss counters of the source are pure diagnostics and
are not modelled. -/
def handlersCached (reg : Registry) (cache : Cache) (name path : List Nat) :
    Option (List Nat) × Cache :=
  match alookup cache path with
  | some r => (r, cache)
  | none =>
    let r := handlersCompute reg name path
    (r, cache ++ [(path, r)])

/-- Parse errors thrown by RtfParser::Document. -/
inductive PErr where
  | noControlAfterOpen
  | unhandledDestination (ctl pth : List Nat)
  | tooManyCloses
deriving DecidableEq

/-- Stack frame pushed for a destination, with the fields of the source
frame object that the parser core itself reads; the document and stack
back references carry no extra information in the model. -/
structure PFrame where
  tok : Nat
  pos : Nat
  ctl : List Nat
  pth : List Nat
  dh : List Nat
deriving DecidableEq

/-- Parser state across main-loop iterations: cursor, stack and cache. -/
structure PState where
  pos : Nat
  stk : List PFrame
  cache : List (List Nat × Option (List Nat))
deriving DecidableEq

/-- Tail of the group-open branch of RtfParser::Document, after the
optional ignorable marker has been consumed: pos2 is the cursor of the
token that must be a control word.  Handler calls mutate only frame and
document state and are modelled as no-ops on the parser state.  A none
result models only the skipper running out of fuel. -/
def docOpen (reg : Registry) (txt : List Nat) (skipFuel : Nat) (st : PState)
    (ign : Bool) (pos2 : Nat) : Except PErr (Option PState) :=
  let tok2 := GetRtfTk txt pos2
  let len2 := tok2 % 256
  let typ2 := (tok2 / 256) % 8
  if typ2 ≠ 6 then Except.error PErr.noControlAfterOpen
  else
    let ctl := (RtfTkCtl tok2 txt pos2).getD []
    let pth := match st.stk.getLast? with
      | none => 59 :: ctl
      | some fr => fr.pth ++ 59 :: ctl
    let rc := handlersCached reg st.cache ctl pth
    match rc.1 with
    | none =>
      if ign then
        match RtfSkipBF skipFuel txt pos2 0 with
        | some q => Except.ok (some (PState.mk q st.stk rc.2))
        | none => Except.ok none
      else Except.error (PErr.unhandledDestination ctl pth)
    | some dh =>
      Except.ok (some (PState.mk (pos2 + len2)
        (st.stk ++ [PFrame.mk tok2 pos2 ctl pth dh]) rc.2))

/-- One iteration of the main loop of RtfParser::Document, covering the
group-open, group-close and ordinary dispatch branches. -/
def docStep (reg : Registry) (txt : List Nat) (skipFuel : Nat) (st : PState) :
    Except PErr (Option PState) :=
  let tok := GetRtfTk txt st.pos
  let len := tok % 256
  let typ := (tok / 256) % 8
  if typ = 2 then
    let pos1 := st.pos + len
    let tok1 := GetRtfTk txt pos1
    let len1 := tok1 % 256
    let typ1 := (tok1 / 256) % 8
    if typ1 = 4 then docOpen reg txt skipFuel st true (pos1 + len1)
    else docOpen reg txt skipFuel st false pos1
  else if typ = 3 then
    if st.stk = [] then Except.error PErr.tooManyCloses
    else Except.ok (some (PState.mk (st.pos + len) st.stk.dropLast st.cache))
  else Except.ok (some (PState.mk (st.pos + len) st.stk st.cache))

-- ====================================================================
-- OLE Package decoder (hx_, le4_, bstr_) and the item name computation
-- ====================================================================

/-- Decode errors of the Package decoder; fuelOut is a modelling artifact
for the byte-reading loop of bstr_ and never appears in a theorem. -/
inductive PkgErr where
  | outOfData
  | unexpectedCode
  | unterminated
  | fuelOut
deriving DecidableEq

/-- Worker for the hex-character reader hx_, walking the suffix of the
source that starts at absolute index i.  Whitespace (space, CR, LF) is
skipped; a decimal digit, an uppercase letter or a lowercase letter is
accepted with the offsets the source applies; otherwise the source throws
out-of-data when the advanced cursor has reached e, and unexpected-code
before that.  An exhausted suffix models the NaN read, which fails every
comparison and reaches the same two throws. -/
def hxA (e : Nat) : List Nat → Nat → Except PkgErr (Nat × Nat)
  | [], i => if e ≤ i + 1 then Except.error PkgErr.outOfData
             else Except.error PkgErr.unexpectedCode
  | c :: rest, i =>
    if c = 32 ∨ c = 13 ∨ c = 10 then hxA e rest (i + 1)
    else if 48 ≤ c ∧ c ≤ 57 then Except.ok (c - 48, i + 1)
    else if 65 ≤ c ∧ c ≤ 90 then Except.ok (c - 55, i + 1)
    else if 97 ≤ c ∧ c ≤ 122 then Except.ok (c - 87, i + 1)
    else if e ≤ i + 1 then Except.error PkgErr.outOfData
    else Except.error PkgErr.unexpectedCode

/-- Mirror of the hex-character reader hx_ of RtfPkgOb. -/
def hx (txt : List Nat) (e i : Nat) : Except PkgErr (Nat × Nat) :=
  hxA e (txt.drop i) i

/-- Mirror of the four-byte little-endian reader le4_ of RtfPkgOb, with
the interleaved nibble placement of the source and the 32-bit truncation
JavaScript applies to each shift. -/
def le4 (txt : List Nat) (e i : Nat) : Except PkgErr (Nat × Nat) := do
  let r1 ← hx txt e i
  let r2 ← hx txt e r1.2
  let r3 ← hx txt e r2.2
  let r4 ← hx txt e r3.2
  let r5 ← hx txt e r4.2
  let r6 ← hx txt e r5.2
  let r7 ← hx txt e r6.2
  let r8 ← hx txt e r7.2
  Except.ok (shl32 r1.1 4 ||| r2.1 ||| shl32 r3.1 12 ||| shl32 r4.1 8 |||
    shl32 r5.1 20 ||| shl32 r6.1 16 ||| shl32 r7.1 28 ||| shl32 r8.1 24, r8.2)

/-- Byte loop of bstr_: reads hex byte pairs while the cursor is below e,
stopping once cnt reaches len; the chunked string building of the source
is modelled as a flat list.  Fuel only models the degenerate case where
the loop cannot progress past e. -/
def bstrLoop (txt : List Nat) (e len : Nat) :
    Nat → Nat → Nat → List Nat → Except PkgErr (List Nat × Nat)
  | 0, _, _, _ => Except.error PkgErr.fuelOut
  | fuel + 1, i, cnt, acc =>
    if i < e then do
      let r1 ← hx txt e i
      let r2 ← hx txt e r1.2
      let c := shl32 r1.1 4 ||| r2.1
      if cnt + 1 ≥ len then Except.ok (acc ++ [c], r2.2)
      else bstrLoop txt e len fuel r2.2 (cnt + 1) (acc ++ [c])
    else Except.ok (acc, i)

/-- Mirror of bstr_ of RtfPkgOb: a four-byte length prefix, the guard that
the announced length fits below e, the byte loop, and for the
zero-terminated variant the final-byte check and strip. -/
def bstr (txt : List Nat) (e : Nat) (zt : Bool) (fuel i : Nat) :
    Except PkgErr (List Nat × Nat) :=
  match le4 txt e i with
  | Except.error err => Except.error err
  | Except.ok rl =>
    if e < rl.2 + rl.1 then Except.error PkgErr.outOfData
    else
      match bstrLoop txt e rl.1 fuel rl.2 0 [] with
      | Except.error err => Except.error err
      | Except.ok rb =>
        if zt then
          match rb.1.getLast? with
          | some 0 => Except.ok (rb.1.dropLast, rb.2)
          | _ => Except.error PkgErr.unterminated
        else Except.ok rb

/-- Index of the last occurrence of c in the list, offset by k, mirroring
the JavaScript lastIndexOf scan. -/
def lastIdxAux : List Nat → Nat → Nat → Option Nat
  | [], _, _ => none
  | x :: rest, c, k =>
    match lastIdxAux rest c (k + 1) with
    | some j => some j
    | none => if x = c then some k else none

/-- Mirror of the item name computation of RtfPkgOb: the source keeps the
whole path unless lastIndexOf finds a backslash at a strictly positive
index (minus one, the absent marker, and zero both fall to the else). -/
def pkgItemName (path : List Nat) : List Nat :=
  match lastIdxAux path 92 0 with
  | some si => if 0 < si then path.drop (si + 1) else path
  | none => path

-- ====================================================================
-- Field extraction over packed tokens
-- ====================================================================

theorem lor_div256 (a b : Nat) : (a ||| b) / 256 = (a / 256) ||| (b / 256) := by
  have h := lor_div_pow a b 8
  norm_num at h
  exact h

theorem lor_mod8 (a b : Nat) : (a ||| b) % 8 = (a % 8) ||| (b % 8) := by
  have h := lor_mod_pow a b 3
  norm_num at h
  exact h

theorem lor_mod65536 (a b : Nat) : (a ||| b) % 65536 = (a % 65536) ||| (b % 65536) := by
  have h := lor_mod_pow a b 16
  norm_num at h
  exact h

theorem lor_div_pow15 (a b : Nat) : (a ||| b) / 2 ^ 15 = (a / 2 ^ 15) ||| (b / 2 ^ 15) :=
  lor_div_pow a b 15

theorem lor_div_pow31 (a b : Nat) : (a ||| b) / 2 ^ 31 = (a / 2 ^ 31) ||| (b / 2 ^ 31) :=
  lor_div_pow a b 31

/-- Field extraction for a packed token with value field v, type ty and
length len, matching the bit layout documented in the source header. -/
theorem packedFields (v ty len : Nat) (hv : v < 2 ^ 16) (hty : ty < 8) (hl : len < 256) :
    RtfTkTyp (2 ^ 31 ||| (v * 2 ^ 15 ||| (ty * 256 ||| len))) = ty ∧
    RtfTkLen (2 ^ 31 ||| (v * 2 ^ 15 ||| (ty * 256 ||| len))) = len ∧
    RtfTkVal (2 ^ 31 ||| (v * 2 ^ 15 ||| (ty * 256 ||| len))) = some ((v : Int) - 32768) := by
  refine ⟨?_, ?_, ?_⟩
  · unfold RtfTkTyp
    rw [lor_div256, lor_div256, lor_div256, lor_mod8, lor_mod8, lor_mod8]
    have e1 : (2 : Nat) ^ 31 / 256 = 2 ^ 23 := by norm_num
    have e2 : v * 2 ^ 15 / 256 = v * 2 ^ 7 := by omega
    have e3 : ty * 256 / 256 = ty := by omega
    have e4 : len / 256 = 0 := by omega
    have m1 : (2 : Nat) ^ 23 % 8 = 0 := by norm_num
    have m2 : v * 2 ^ 7 % 8 = 0 := by omega
    have m3 : ty % 8 = ty := by omega
    rw [e1, e2, e3, e4, m1, m2, m3]
    simp
  · unfold RtfTkLen
    rw [lor_mod256, lor_mod256, lor_mod256]
    have m1 : (2 : Nat) ^ 31 % 256 = 0 := by norm_num
    have m2 : v * 2 ^ 15 % 256 = 0 := by omega
    have m3 : ty * 256 % 256 = 0 := by omega
    have m4 : len % 256 = len := by omega
    rw [m1, m2, m3, m4]
    simp
  · unfold RtfTkVal
    have hhas : (2 ^ 31 ||| (v * 2 ^ 15 ||| (ty * 256 ||| len))) / 2 ^ 31 = 1 := by
      rw [lor_div_pow31, lor_div_pow31, lor_div_pow31]
      have e1 : (2 : Nat) ^ 31 / 2 ^ 31 = 1 := by norm_num
      have e2 : v * 2 ^ 15 / 2 ^ 31 = 0 := by omega
      have e3 : ty * 256 / 2 ^ 31 = 0 := by omega
      have e4 : len / 2 ^ 31 = 0 := by omega
      rw [e1, e2, e3, e4]
      simp
    rw [hhas]
    have hval : (2 ^ 31 ||| (v * 2 ^ 15 ||| (ty * 256 ||| len))) / 2 ^ 15 % 65536 = v := by
      rw [lor_div_pow15, lor_div_pow15, lor_div_pow15]
      have e1 : (2 : Nat) ^ 31 / 2 ^ 15 = 2 ^ 16 := by norm_num
      have e2 : v * 2 ^ 15 / 2 ^ 15 = v := by omega
      have e3 : ty * 256 / 2 ^ 15 = 0 := by omega
      have e4 : len / 2 ^ 15 = 0 := by omega
      rw [e1, e2, e3, e4]
      rw [lor_mod65536, lor_mod65536, lor_mod65536]
      have m1 : (2 : Nat) ^ 16 % 65536 = 0 := by norm_num
      have m2 : v % 65536 = v := by omega
      rw [m1, m2]
      simp
    rw [hval]
    simp

-- ====================================================================
-- Branch reduction lemmas for GetRtfTk
-- ====================================================================

/-- Reduction of GetRtfTk for a backslash followed by a single non-letter
that is neither the asterisk nor the apostrophe: the contradictory range
test of the source makes the Invalid return unreachable, so the Symbol
return is always taken. -/
theorem getRtfTk_symbol (s : List Nat) (i c : Nat)
    (h0 : nth s i = some 92) (h1 : nth s (i + 1) = some c)
    (hnl : ¬ (97 ≤ c ∧ c ≤ 122)) (hast : c ≠ 42) (hapo : c ≠ 39) :
    GetRtfTk s i = 2 ^ 31 ||| (shl32 (c + 32768) 15 ||| 1282) := by
  have hdrop : s.drop (i + 1) = c :: s.drop (i + 1 + 1) := drop_cons_of_nth h1
  have hcl : countLetters (s.drop (i + 1)) = 0 := by
    rw [hdrop]
    simp only [countLetters]
    rw [if_neg hnl]
  have hcond : ¬ (c ≠ 92 ∧ c ≠ 45 ∧ c ≠ 58 ∧ c ≠ 95 ∧ c < 123 ∧ 126 < c) := by omega
  simp only [GetRtfTk, h0]
  norm_num
  simp only [backslashTok, hcl, h1]
  rw [if_true, if_neg hast, if_neg hapo, if_neg hcond]
  norm_num

/-- Reduction of GetRtfTk for a CR or LF byte to the run token. -/
theorem getRtfTk_crlf (s : List Nat) (i c : Nat)
    (h0 : nth s i = some c) (hc : c = 10 ∨ c = 13) :
    GetRtfTk s i = 2 ^ 31 ||| (1074169088 ||| scanCrlf (s.drop (i + 1)) 1) := by
  rcases hc with rfl | rfl <;> simp [GetRtfTk, h0]

-- ====================================================================
-- Claim C1
-- ====================================================================

/-- Claim C1 counterexample: after a backslash, the plus sign (code 43) is
a non-letter other than the asterisk and the apostrophe and is none of the
eight listed symbol bytes, yet the tokenizer returns a Symbol token (type
5, not the Invalid type 0) of length 2 with value 43. -/
theorem rtfC1_cex :
    RtfTkTyp (GetRtfTk [92, 43] 0) = 5 ∧ RtfTkTyp (GetRtfTk [92, 43] 0) ≠ 0 ∧
    RtfTkLen (GetRtfTk [92, 43] 0) = 2 ∧ RtfTkVal (GetRtfTk [92, 43] 0) = some 43 := by
  refine ⟨by rfl, ?_, by rfl, by rfl⟩
  have h5 : RtfTkTyp (GetRtfTk [92, 43] 0) = 5 := by rfl
  omega

/-- Claim C1 as amended: for every input where the byte at the offset is a
backslash followed by exactly one non-letter byte that is not the asterisk
and not the apostrophe, the tokenizer returns a Symbol token of length 2
whose value is the code of that byte; this holds for the eight listed
bytes and for every other such byte alike, because the guard of the
Invalid return demands both c < 123 and 126 < c and can never hold. -/
theorem rtfC1_thm (s : List Nat) (i c : Nat)
    (h0 : nth s i = some 92) (h1 : nth s (i + 1) = some c)
    (hnl : ¬ (97 ≤ c ∧ c ≤ 122)) (hast : c ≠ 42) (hapo : c ≠ 39) (hbyte : c ≤ 255) :
    RtfTkTyp (GetRtfTk s i) = 5 ∧ RtfTkLen (GetRtfTk s i) = 2 ∧
    RtfTkVal (GetRtfTk s i) = some (c : Int) := by
  rw [getRtfTk_symbol s i c h0 h1 hnl hast hapo]
  have hs : shl32 (c + 32768) 15 = (c + 32768) * 2 ^ 15 := by
    unfold shl32
    apply Nat.mod_eq_of_lt
    omega
  have h1282 : (1282 : Nat) = 5 * 256 ||| 2 := by decide
  rw [hs, h1282]
  have hp := packedFields (c + 32768) 5 2 (by omega) (by norm_num) (by norm_num)
  refine ⟨hp.1, hp.2.1, ?_⟩
  rw [hp.2.2]
  have hcast : ((c + 32768 : Nat) : Int) - 32768 = (c : Int) := by
    push_cast
    ring
  rw [hcast]

/-- Claim C1 witness: the vertical bar (code 124) after a backslash gives
a Symbol token of length 2 and value 124. -/
theorem rtfC1_wit :
    RtfTkTyp (GetRtfTk [92, 124] 0) = 5 ∧ RtfTkLen (GetRtfTk [92, 124] 0) = 2 ∧
    RtfTkVal (GetRtfTk [92, 124] 0) = some ((124 : Nat) : Int) :=
  rtfC1_thm [92, 124] 0 124 (by rfl) (by rfl) (by decide) (by decide) (by decide)
    (by decide)

-- ====================================================================
-- Claim C2
-- ====================================================================

/-- Count of the leading CR and LF bytes of a list, written from the
specification wording for the run the token is said to cover. -/
def crlfRun : List Nat → Nat
  | [] => 0
  | c :: rest => if c = 10 ∨ c = 13 then crlfRun rest + 1 else 0

theorem scanCrlf_min (l : List Nat) (len : Nat) (h1 : 1 ≤ len) (h2 : len ≤ 254) :
    scanCrlf l len = min (len + crlfRun l) 255 := by
  induction l generalizing len with
  | nil =>
    simp only [scanCrlf, crlfRun]
    omega
  | cons c rest ih =>
    simp only [scanCrlf, crlfRun]
    by_cases hc : c = 10 ∨ c = 13
    · rw [if_neg (by omega), if_pos hc]
      by_cases h255 : len + 1 = 255
      · rw [if_pos h255]
        have := crlfRun rest
        omega
      · rw [if_neg h255, ih (len + 1) (by omega) (by omega)]
        omega
    · rw [if_pos (by omega), if_neg hc]
      omega

/-- Claim C2 counterexample: a CR byte yields a token of type 5 (Symbol),
not type 6 (ControlWord) as the claim states. -/
theorem rtfC2_cex :
    RtfTkTyp (GetRtfTk [13] 0) = 5 ∧ RtfTkTyp (GetRtfTk [13] 0) ≠ 6 := by
  have h5 : RtfTkTyp (GetRtfTk [13] 0) = 5 := by rfl
  exact ⟨h5, by omega⟩

/-- Claim C2 as amended: for every input where the byte at the offset is
CR or LF, the tokenizer returns a token of kind Symbol (not ControlWord)
with value 13 and the value bit set, whose length covers the whole run of
consecutive CR and LF bytes up to a maximum of 255. -/
theorem rtfC2_thm (s : List Nat) (i c : Nat)
    (h0 : nth s i = some c) (hc : c = 10 ∨ c = 13) :
    RtfTkTyp (GetRtfTk s i) = 5 ∧ RtfTkVal (GetRtfTk s i) = some 13 ∧
    RtfTkLen (GetRtfTk s i) = min (1 + crlfRun (s.drop (i + 1))) 255 := by
  rw [getRtfTk_crlf s i c h0 hc]
  have hlen := scanCrlf_bounds (s.drop (i + 1)) 1 (by norm_num) (by norm_num)
  have h107 : (1074169088 : Nat) = 32781 * 2 ^ 15 ||| 5 * 256 := by decide
  rw [h107, Nat.or_assoc]
  have hp := packedFields 32781 5 (scanCrlf (s.drop (i + 1)) 1)
    (by norm_num) (by norm_num) (by omega)
  refine ⟨hp.1, ?_, ?_⟩
  · rw [hp.2.2]
    norm_num
  · rw [hp.2.1, scanCrlf_min _ 1 (by norm_num) (by norm_num)]

/-- Claim C2 witness: an LF followed by a CR gives the Symbol token with
value 13 covering the full run of two bytes. -/
theorem rtfC2_wit :
    RtfTkTyp (GetRtfTk [10, 13] 0) = 5 ∧ RtfTkVal (GetRtfTk [10, 13] 0) = some 13 ∧
    RtfTkLen (GetRtfTk [10, 13] 0) = min (1 + crlfRun (List.drop 1 [10, 13])) 255 :=
  rtfC2_thm [10, 13] 0 10 (by rfl) (Or.inl rfl)

-- ====================================================================
-- Claim C3
-- ====================================================================

/-- Claim C3 bug evaluation: the source reads backslash apostrophe 4 1 as
a Character token of length 4, but the packed return omits the 32768 bias
that every other valued token adds before shifting, so the value accessor
yields 65 - 32768 = -32703 instead of the documented (hi shl 4) or lo = 65;
the commented-out NewRtfTk call above the return documents the intended
value.  The invalid-hex half of the claim does hold: a bad digit such as G
gives an Invalid token of length 4, as also evaluated here. -/
theorem rtfC3_bug :
    RtfTkTyp (GetRtfTk [92, 39, 52, 49] 0) = 7 ∧
    RtfTkLen (GetRtfTk [92, 39, 52, 49] 0) = 4 ∧
    RtfTkVal (GetRtfTk [92, 39, 52, 49] 0) = some (-32703) ∧
    RtfTkVal (GetRtfTk [92, 39, 52, 49] 0) ≠ some 65 ∧
    RtfTkTyp (GetRtfTk [92, 39, 71, 49] 0) = 0 ∧
    RtfTkLen (GetRtfTk [92, 39, 71, 49] 0) = 4 := by
  have hv : RtfTkVal (GetRtfTk [92, 39, 52, 49] 0) = some (-32703) := by rfl
  refine ⟨by rfl, by rfl, hv, ?_, by rfl, by rfl⟩
  rw [hv]
  decide

-- ====================================================================
-- Claim C9
-- ====================================================================

theorem nth_eq_none_of_le {l : List Nat} {i : Nat} (h : l.length ≤ i) : nth l i = none := by
  cases hn : nth l i with
  | none => rfl
  | some c => exact absurd (nth_lt hn) (by omega)

theorem nth_of_mem {l : List Nat} {c : Nat} (h : c ∈ l) : ∃ j, nth l j = some c := by
  induction l with
  | nil => simp at h
  | cons x rest ih =>
    rcases List.mem_cons.mp h with rfl | hm
    · exact ⟨0, rfl⟩
    · obtain ⟨j, hj⟩ := ih hm
      exact ⟨j + 1, hj⟩

theorem lastIdxAux_none (l : List Nat) (c k : Nat) (h : ∀ x ∈ l, x ≠ c) :
    lastIdxAux l c k = none := by
  induction l generalizing k with
  | nil => rfl
  | cons x rest ih =>
    simp only [lastIdxAux]
    rw [ih (k + 1) (fun y hy => h y (List.mem_cons_of_mem x hy))]
    rw [if_neg (h x (List.mem_cons_self x rest))]

theorem lastIdxAux_some (l : List Nat) (c k m : Nat)
    (hm : nth l m = some c) (hlast : ∀ j, m < j → nth l j ≠ some c) :
    lastIdxAux l c k = some (k + m) := by
  induction l generalizing k m with
  | nil => simp [nth] at hm
  | cons x rest ih =>
    cases m with
    | zero =>
      simp only [nth, Option.some.injEq] at hm
      have hrest : ∀ y ∈ rest, y ≠ c := by
        intro y hy hyc
        obtain ⟨j, hj⟩ := nth_of_mem hy
        exact hlast (j + 1) (by omega) (by rw [hyc] at hj; exact hj)
      simp only [lastIdxAux]
      rw [lastIdxAux_none rest c (k + 1) hrest]
      simp [hm]
    | succ m =>
      simp only [nth] at hm
      have hlast2 : ∀ j, m < j → nth rest j ≠ some c := by
        intro j hj
        exact hlast (j + 1) (by omega)
      simp only [lastIdxAux]
      rw [ih (k + 1) m hm hlast2]
      have : k + 1 + m = k + (m + 1) := by omega
      rw [this]

/-- Claim C9 counterexample: a path whose only backslash is its first
character keeps the whole path as its name, although the claim demands
the substring after the last backslash. -/
theorem rtfC9_cex :
    pkgItemName [92, 97] = [92, 97] ∧ pkgItemName [92, 97] ≠ [97] := by
  decide

/-- Claim C9 as amended: an item name equals the substring of its path
after the last backslash when that backslash sits at a strictly positive
index; when the path contains no backslash, or its only backslash is the
first character (lastIndexOf returning 0 falls into the same branch as
the absent marker -1), the name is the entire path. -/
theorem rtfC9_thm (path : List Nat) :
    (∀ si, nth path si = some 92 → (∀ j, si < j → nth path j ≠ some 92) → 0 < si →
      pkgItemName path = path.drop (si + 1))
    ∧ ((∀ x ∈ path, x ≠ 92) → pkgItemName path = path)
    ∧ (nth path 0 = some 92 → (∀ j, 0 < j → nth path j ≠ some 92) →
      pkgItemName path = path) := by
  refine ⟨?_, ?_, ?_⟩
  · intro si h1 h2 h3
    unfold pkgItemName
    rw [lastIdxAux_some path 92 0 si h1 h2]
    simp only [Nat.zero_add]
    rw [if_pos h3]
  · intro h
    unfold pkgItemName
    rw [lastIdxAux_none path 92 0 h]
  · intro h1 h2
    unfold pkgItemName
    rw [lastIdxAux_some path 92 0 0 h1 h2]
    simp

/-- Claim C9 witness: the path a backslash b has its last backslash at
index 1, so the computed name is the substring from index 2. -/
theorem rtfC9_wit : pkgItemName [97, 92, 98] = List.drop (1 + 1) [97, 92, 98] := by
  refine (rtfC9_thm [97, 92, 98]).1 1 (by rfl) ?_ (by omega)
  intro j hj h
  rcases j with _ | _ | _ | n
  · omega
  · omega
  · exact absurd h (by decide)
  · simp [nth] at h

-- ====================================================================
-- Claims C10 and C7: the hex reader and the string reader guard
-- ====================================================================

/-- Whitespace codes skipped by the hex reader of the Package decoder. -/
def isWsCode (c : Nat) : Prop := c = 32 ∨ c = 13 ∨ c = 10

/-- Codes the hex reader accepts: ASCII digits, uppercase letters and
lowercase letters, with the full letter ranges the source tests. -/
def isAlnumCode (c : Nat) : Prop :=
  (48 ≤ c ∧ c ≤ 57) ∨ (65 ≤ c ∧ c ≤ 90) ∨ (97 ≤ c ∧ c ≤ 122)

theorem hx_digit (txt : List Nat) (e i c : Nat) (h : nth txt i = some c)
    (h1 : 48 ≤ c) (h2 : c ≤ 57) : hx txt e i = Except.ok (c - 48, i + 1) := by
  unfold hx
  rw [drop_cons_of_nth h]
  simp only [hxA]
  rw [if_neg (by omega), if_pos (by omega)]

theorem hx_upper (txt : List Nat) (e i c : Nat) (h : nth txt i = some c)
    (h1 : 65 ≤ c) (h2 : c ≤ 90) : hx txt e i = Except.ok (c - 55, i + 1) := by
  unfold hx
  rw [drop_cons_of_nth h]
  simp only [hxA]
  rw [if_neg (by omega), if_neg (by omega), if_pos (by omega)]

theorem hx_lower (txt : List Nat) (e i c : Nat) (h : nth txt i = some c)
    (h1 : 97 ≤ c) (h2 : c ≤ 122) : hx txt e i = Except.ok (c - 87, i + 1) := by
  unfold hx
  rw [drop_cons_of_nth h]
  simp only [hxA]
  rw [if_neg (by omega), if_neg (by omega), if_neg (by omega), if_pos (by omega)]

theorem hxA_unexpected (txt : List Nat) (e : Nat) (he : e ≤ txt.length) :
    ∀ sfx i, sfx = txt.drop i →
      hxA e sfx i = Except.error PkgErr.unexpectedCode →
      ∃ j c2, i ≤ j ∧ nth txt j = some c2 ∧ ¬ isWsCode c2 ∧ ¬ isAlnumCode c2 := by
  intro sfx
  induction sfx with
  | nil =>
    intro i hdrop heq
    exfalso
    have hlen : txt.length ≤ i := by
      have h2 := congrArg List.length hdrop
      simp only [List.length_nil, List.length_drop] at h2
      omega
    simp only [hxA] at heq
    rw [if_pos (by omega)] at heq
    exact absurd heq (by simp)
  | cons c2 rest ih =>
    intro i hdrop heq
    have hc2 : nth txt i = some c2 := by
      have h0 := nth_drop txt i 0
      rw [← hdrop] at h0
      simpa using h0.symm
    have hrest : rest = txt.drop (i + 1) := by
      have hd := drop_cons_of_nth hc2
      rw [← hdrop] at hd
      exact (List.cons_inj_right c2).mp hd
    simp only [hxA] at heq
    by_cases hws : c2 = 32 ∨ c2 = 13 ∨ c2 = 10
    · rw [if_pos hws] at heq
      obtain ⟨j, c3, hij, hj⟩ := ih (i + 1) hrest heq
      exact ⟨j, c3, by omega, hj⟩
    · rw [if_neg hws] at heq
      by_cases hd : 48 ≤ c2 ∧ c2 ≤ 57
      · rw [if_pos hd] at heq
        exact absurd heq (by simp)
      · rw [if_neg hd] at heq
        by_cases hu : 65 ≤ c2 ∧ c2 ≤ 90
        · rw [if_pos hu] at heq
          exact absurd heq (by simp)
        · rw [if_neg hu] at heq
          by_cases hl : 97 ≤ c2 ∧ c2 ≤ 122
          · rw [if_pos hl] at heq
            exact absurd heq (by simp)
          · rw [if_neg hl] at heq
            by_cases hend : e ≤ i + 1
            · rw [if_pos hend] at heq
              exact absurd heq (by simp)
            · refine ⟨i, c2, le_rfl, hc2, hws, ?_⟩
              unfold isAlnumCode
              tauto

theorem hxA_outOfData (txt : List Nat) (e : Nat) :
    ∀ sfx i, sfx = txt.drop i →
      hxA e sfx i = Except.error PkgErr.outOfData →
      ∃ j, i ≤ j ∧ e ≤ j + 1 ∧
        ∀ c2, nth txt j = some c2 → ¬ isWsCode c2 ∧ ¬ isAlnumCode c2 := by
  intro sfx
  induction sfx with
  | nil =>
    intro i hdrop heq
    have hlen : txt.length ≤ i := by
      have h2 := congrArg List.length hdrop
      simp only [List.length_nil, List.length_drop] at h2
      omega
    simp only [hxA] at heq
    by_cases hend : e ≤ i + 1
    · refine ⟨i, le_rfl, hend, ?_⟩
      intro c2 hc2
      rw [nth_eq_none_of_le hlen] at hc2
      exact absurd hc2 (by simp)
    · rw [if_neg hend] at heq
      exact absurd heq (by simp)
  | cons c2 rest ih =>
    intro i hdrop heq
    have hc2 : nth txt i = some c2 := by
      have h0 := nth_drop txt i 0
      rw [← hdrop] at h0
      simpa using h0.symm
    have hrest : rest = txt.drop (i + 1) := by
      have hd := drop_cons_of_nth hc2
      rw [← hdrop] at hd
      exact (List.cons_inj_right c2).mp hd
    simp only [hxA] at heq
    by_cases hws : c2 = 32 ∨ c2 = 13 ∨ c2 = 10
    · rw [if_pos hws] at heq
      obtain ⟨j, hij, hj⟩ := ih (i + 1) hrest heq
      exact ⟨j, by omega, hj⟩
    · rw [if_neg hws] at heq
      by_cases hd : 48 ≤ c2 ∧ c2 ≤ 57
      · rw [if_pos hd] at heq
        exact absurd heq (by simp)
      · rw [if_neg hd] at heq
        by_cases hu : 65 ≤ c2 ∧ c2 ≤ 90
        · rw [if_pos hu] at heq
          exact absurd heq (by simp)
        · rw [if_neg hu] at heq
          by_cases hl : 97 ≤ c2 ∧ c2 ≤ 122
          · rw [if_pos hl] at heq
            exact absurd heq (by simp)
          · rw [if_neg hl] at heq
            by_cases hend : e ≤ i + 1
            · refine ⟨i, le_rfl, hend, ?_⟩
              intro c3 hc3
              rw [hc2] at hc3
              obtain rfl : c2 = c3 := by
                simpa using hc3
              refine ⟨hws, ?_⟩
              unfold isAlnumCode
              tauto
            · rw [if_neg hend] at heq
              exact absurd heq (by simp)

/-- Claim C10: the hex reader of the Package decoder accepts every ASCII
letter as a hex digit, mapping uppercase letters to code minus 0x37 (so G
through Z yield 16 through 35) and lowercase letters to code minus 0x57,
and raises its unexpected-code error only after examining a byte that is
neither an ASCII alphanumeric nor one of the skipped whitespace bytes
space, CR, LF, the end bound lying within the source. -/
theorem rtfC10_thm (txt : List Nat) (e i c : Nat) :
    (nth txt i = some c → 65 ≤ c → c ≤ 90 → hx txt e i = Except.ok (c - 55, i + 1))
    ∧ (nth txt i = some c → 97 ≤ c → c ≤ 122 → hx txt e i = Except.ok (c - 87, i + 1))
    ∧ (e ≤ txt.length → hx txt e i = Except.error PkgErr.unexpectedCode →
      ∃ j c2, i ≤ j ∧ nth txt j = some c2 ∧ ¬ isWsCode c2 ∧ ¬ isAlnumCode c2) := by
  refine ⟨fun h h1 h2 => hx_upper txt e i c h h1 h2,
    fun h h1 h2 => hx_lower txt e i c h h1 h2, fun he heq => ?_⟩
  exact hxA_unexpected txt e he (txt.drop i) i rfl heq

/-- Claim C10 witness: the letter G (code 71) is taken as a hex digit of
value 16 even though it is not a hexadecimal character. -/
theorem rtfC10_wit : hx [71] 1 0 = Except.ok (71 - 55, 0 + 1) :=
  (rtfC10_thm [71] 1 0 71).1 (by rfl) (by omega) (by omega)

/-- Claim C7 counterexample: with the range ending at 1, a read starting
at cursor 1 consumes the byte at index 1, at the end bound, and returns
a value with the cursor two past the beginning instead of failing with
out-of-data. -/
theorem rtfC7_cex :
    hx [52, 65] 1 1 = Except.ok (10, 2) ∧
    hx [52, 65] 1 1 ≠ Except.error PkgErr.outOfData := by
  have h : hx [52, 65] 1 1 = Except.ok (10, 2) := by rfl
  refine ⟨h, ?_⟩
  rw [h]
  simp

/-- Claim C7 as amended: the hex reader advances freely, skipping
whitespace and consuming alphanumeric bytes even at or past the end bound,
so its cursor may leave the decoded range; it reports out-of-data only on
examining a byte that is neither alphanumeric nor whitespace (or running
off the source) once the advanced cursor has reached the end bound.  The
length-prefixed string reader does fail with out-of-data whenever the
announced length would require bytes at or past the end bound. -/
theorem rtfC7_thm :
    (∀ txt e i, hx txt e i = Except.error PkgErr.outOfData →
      ∃ j, i ≤ j ∧ e ≤ j + 1 ∧
        ∀ c2, nth txt j = some c2 → ¬ isWsCode c2 ∧ ¬ isAlnumCode c2)
    ∧ (∀ txt e zt fuel i len i1, le4 txt e i = Except.ok (len, i1) → e < i1 + len →
      bstr txt e zt fuel i = Except.error PkgErr.outOfData) := by
  constructor
  · intro txt e i heq
    exact hxA_outOfData txt e (txt.drop i) i rfl heq
  · intro txt e zt fuel i len i1 hle4 hgt
    unfold bstr
    rw [hle4]
    dsimp only
    rw [if_pos (by omega)]

/-- Claim C7 witness: a length prefix of 0x05000000 announces far more
bytes than the range holds, so the string reader fails with out-of-data. -/
theorem rtfC7_wit :
    bstr [48, 48, 48, 48, 48, 48, 48, 53] 8 true 5 0 = Except.error PkgErr.outOfData :=
  rtfC7_thm.2 [48, 48, 48, 48, 48, 48, 48, 53] 8 true 5 0 83886080 8 (by rfl) (by norm_num)

-- ====================================================================
-- Claim C8
-- ====================================================================

/-- Claim C8: whenever a matching close brace exists, in the sense of the
skip walk specification SkipSpec (GroupOpen increments the depth,
GroupClose decrements it, other tokens consume only their length, and the
walk ends just past the first GroupClose at the initial depth), the block
skipper returns exactly the offset past that close brace once given enough
fuel to run the loop to that point. -/
theorem rtfC8_thm (s : List Nat) (i bc r : Nat) (h : SkipSpec s i bc r) :
    ∃ F, ∀ fuel, F ≤ fuel → RtfSkipBF fuel s i bc = some r := by
  induction h with
  | closeHere ps bc h hty hbc =>
    refine ⟨1, fun fuel hf => ?_⟩
    obtain ⟨f, rfl⟩ : ∃ f, fuel = f + 1 := ⟨fuel - 1, by omega⟩
    unfold RtfTkTyp at hty
    simp only [RtfSkipBF]
    rw [if_pos h, hty]
    norm_num
    rw [if_pos hbc]
    rfl
  | push ps bc r h hty spec ih =>
    obtain ⟨F, hF⟩ := ih
    refine ⟨F + 1, fun fuel hf => ?_⟩
    obtain ⟨f, rfl⟩ : ∃ f, fuel = f + 1 := ⟨fuel - 1, by omega⟩
    unfold RtfTkTyp at hty
    simp only [RtfSkipBF]
    rw [if_pos h, hty]
    norm_num
    exact hF f (by omega)
  | popDeep ps bc r h hty hbc spec ih =>
    obtain ⟨F, hF⟩ := ih
    refine ⟨F + 1, fun fuel hf => ?_⟩
    obtain ⟨f, rfl⟩ : ∃ f, fuel = f + 1 := ⟨fuel - 1, by omega⟩
    unfold RtfTkTyp at hty
    simp only [RtfSkipBF]
    rw [if_pos h, hty]
    norm_num
    rw [if_neg (by omega)]
    exact hF f (by omega)
  | step ps bc r h hty2 hty3 spec ih =>
    obtain ⟨F, hF⟩ := ih
    refine ⟨F + 1, fun fuel hf => ?_⟩
    obtain ⟨f, rfl⟩ : ∃ f, fuel = f + 1 := ⟨fuel - 1, by omega⟩
    unfold RtfTkTyp at hty2 hty3
    simp only [RtfSkipBF]
    rw [if_pos h, if_neg hty2, if_neg hty3]
    exact hF f (by omega)

/-- Claim C8 witness: in the source a b open c close close x, the skip
walk from offset 0 at depth 0 passes the data token a b, the open brace,
the data token c, the inner close at depth 1, and stops just past the
outer close, at offset 6. -/
theorem rtfC8_wit :
    ∃ F, ∀ fuel, F ≤ fuel →
      RtfSkipBF fuel [97, 98, 123, 99, 125, 125, 120] 0 0 = some 6 := by
  apply rtfC8_thm
  refine SkipSpec.step 0 0 6 (by norm_num) ?_ ?_ ?_
  · have h1 : RtfTkTyp (GetRtfTk [97, 98, 123, 99, 125, 125, 120] 0) = 1 := by rfl
    omega
  · have h1 : RtfTkTyp (GetRtfTk [97, 98, 123, 99, 125, 125, 120] 0) = 1 := by rfl
    omega
  · have e0 : (0 : Nat) + RtfTkLen (GetRtfTk [97, 98, 123, 99, 125, 125, 120] 0) = 2 := by rfl
    rw [e0]
    refine SkipSpec.push 2 0 6 (by norm_num) (by rfl) ?_
    have e2 : (2 : Nat) + RtfTkLen (GetRtfTk [97, 98, 123, 99, 125, 125, 120] 2) = 3 := by rfl
    rw [e2]
    refine SkipSpec.step 3 1 6 (by norm_num) ?_ ?_ ?_
    · have h1 : RtfTkTyp (GetRtfTk [97, 98, 123, 99, 125, 125, 120] 3) = 1 := by rfl
      omega
    · have h1 : RtfTkTyp (GetRtfTk [97, 98, 123, 99, 125, 125, 120] 3) = 1 := by rfl
      omega
    · have e3 : (3 : Nat) + RtfTkLen (GetRtfTk [97, 98, 123, 99, 125, 125, 120] 3) = 4 := by rfl
      rw [e3]
      refine SkipSpec.popDeep 4 1 6 (by norm_num) (by rfl) (by omega) ?_
      have e4 : (4 : Nat) + RtfTkLen (GetRtfTk [97, 98, 123, 99, 125, 125, 120] 4) = 5 := by rfl
      rw [e4]
      have e5 : (5 : Nat) + RtfTkLen (GetRtfTk [97, 98, 123, 99, 125, 125, 120] 5) = 6 := by rfl
      rw [← e5]
      exact SkipSpec.closeHere 5 (1 - 1) (by norm_num) (by rfl) (by norm_num)

-- ====================================================================
-- Claim C5
-- ====================================================================

/-- Cursor just past the token at p, as the main loop advances. -/
def nextTk (txt : List Nat) (p : Nat) : Nat := p + RtfTkLen (GetRtfTk txt p)

/-- Control-word name of the destination token at p. -/
def destCtl (txt : List Nat) (p : Nat) : List Nat :=
  (RtfTkCtl (GetRtfTk txt p) txt p).getD []

/-- Stack path of the destination token at p: the parent path, a
semicolon, and the control name, or just a semicolon and the name when
the stack is empty. -/
def destPth (st : PState) (txt : List Nat) (p : Nat) : List Nat :=
  match st.stk.getLast? with
  | none => 59 :: destCtl txt p
  | some fr => fr.pth ++ 59 :: destCtl txt p


theorem docOpen_none_ign (reg : Registry) (txt : List Nat) (skipFuel : Nat)
    (st : PState) (pos2 q : Nat)
    (h6 : RtfTkTyp (GetRtfTk txt pos2) = 6)
    (hnone : (handlersCached reg st.cache (destCtl txt pos2) (destPth st txt pos2)).1 = none)
    (hskip : RtfSkipBF skipFuel txt pos2 0 = some q) :
    docOpen reg txt skipFuel st true pos2 = Except.ok (some (PState.mk q st.stk
      (handlersCached reg st.cache (destCtl txt pos2) (destPth st txt pos2)).2)) := by
  unfold RtfTkTyp at h6
  unfold destPth destCtl at hnone
  unfold docOpen
  dsimp only
  rw [if_neg (by rw [h6]; norm_num)]
  rw [hnone]
  dsimp only
  rw [hskip]
  rfl

theorem docOpen_none_strict (reg : Registry) (txt : List Nat) (skipFuel : Nat)
    (st : PState) (pos2 : Nat)
    (h6 : RtfTkTyp (GetRtfTk txt pos2) = 6)
    (hnone : (handlersCached reg st.cache (destCtl txt pos2) (destPth st txt pos2)).1 = none) :
    docOpen reg txt skipFuel st false pos2 = Except.error
      (PErr.unhandledDestination (destCtl txt pos2) (destPth st txt pos2)) := by
  unfold RtfTkTyp at h6
  unfold destPth destCtl at hnone ⊢
  unfold docOpen
  dsimp only
  rw [if_neg (by rw [h6]; norm_num)]
  rw [hnone]
  rfl

/-- Claim C5: during group-open processing, whenever the resolved handler
list for the new destination is empty (the distinguished null), then: if
the group began with the ignorable marker, the parser sets its cursor to
the result of the block skipper run from the control-word position and
continues without error with the stack unchanged; otherwise the parse
fails with the unhandled-destination error carrying the name and path. -/
theorem rtfC5_thm (reg : Registry) (txt : List Nat) (skipFuel : Nat) (st : PState)
    (h2 : RtfTkTyp (GetRtfTk txt st.pos) = 2) :
    (∀ q,
      RtfTkTyp (GetRtfTk txt (nextTk txt st.pos)) = 4 →
      RtfTkTyp (GetRtfTk txt (nextTk txt (nextTk txt st.pos))) = 6 →
      (handlersCached reg st.cache (destCtl txt (nextTk txt (nextTk txt st.pos)))
        (destPth st txt (nextTk txt (nextTk txt st.pos)))).1 = none →
      RtfSkipBF skipFuel txt (nextTk txt (nextTk txt st.pos)) 0 = some q →
      docStep reg txt skipFuel st = Except.ok (some (PState.mk q st.stk
        (handlersCached reg st.cache (destCtl txt (nextTk txt (nextTk txt st.pos)))
          (destPth st txt (nextTk txt (nextTk txt st.pos)))).2)))
    ∧ (RtfTkTyp (GetRtfTk txt (nextTk txt st.pos)) = 6 →
      (handlersCached reg st.cache (destCtl txt (nextTk txt st.pos))
        (destPth st txt (nextTk txt st.pos))).1 = none →
      docStep reg txt skipFuel st = Except.error (PErr.unhandledDestination
        (destCtl txt (nextTk txt st.pos)) (destPth st txt (nextTk txt st.pos)))) := by
  constructor
  · intro q h4 h6 hnone hskip
    have hred : docStep reg txt skipFuel st =
        docOpen reg txt skipFuel st true (nextTk txt (nextTk txt st.pos)) := by
      unfold RtfTkTyp at h2 h4
      unfold nextTk RtfTkLen at h4
      unfold docStep
      dsimp only
      rw [if_pos h2, if_pos h4]
      rfl
    rw [hred]
    exact docOpen_none_ign reg txt skipFuel st (nextTk txt (nextTk txt st.pos)) q h6 hnone hskip
  · intro h6 hnone
    have h4 : ¬ ((GetRtfTk txt (st.pos + GetRtfTk txt st.pos % 256) / 256) % 8 = 4) := by
      unfold RtfTkTyp at h6
      unfold nextTk RtfTkLen at h6
      rw [h6]
      norm_num
    have hred : docStep reg txt skipFuel st =
        docOpen reg txt skipFuel st false (nextTk txt st.pos) := by
      unfold RtfTkTyp at h2
      unfold docStep
      dsimp only
      rw [if_pos h2, if_neg h4]
      rfl
    rw [hred]
    exact docOpen_none_strict reg txt skipFuel st (nextTk txt st.pos) h6 hnone

/-- Claim C5 witness: in the source open-brace backslash asterisk
backslash a b close-brace x with no registered handlers, the destination
a b resolves to no handlers, the frame is ignorable, and the parser
continues at offset 7 (past the close brace) with the no-handlers result
cached under the path semicolon a b. -/
theorem rtfC5_wit :
    docStep (Registry.mk [] []) [123, 92, 42, 92, 97, 98, 125, 120] 20 (PState.mk 0 [] []) =
      Except.ok (some (PState.mk 7 [] [([59, 97, 98], none)])) := by
  have h := (rtfC5_thm (Registry.mk [] []) [123, 92, 42, 92, 97, 98, 125, 120] 20
    (PState.mk 0 [] []) (by rfl)).1 7 (by rfl) (by rfl) (by rfl) (by rfl)
  rw [h]
  rfl

-- ====================================================================
-- Claim C6
-- ====================================================================

/-- Regex stage of handler resolution written from the specification
wording: walk the pattern registrations in order, skip a handler reference
already collected, and append a handler whose pattern matches the path,
the collected set growing as handlers are appended. -/
def regexStage (path : List Nat) : List (RePat × Nat) → List Nat → List Nat
  | [], _ => []
  | pr :: rest, seen =>
    if pr.2 ∈ seen then regexStage path rest seen
    else if pr.1.test path then pr.2 :: regexStage path rest (seen ++ [pr.2])
    else regexStage path rest seen

theorem foldl_regexStage (path : List Nat) (prs : List (RePat × Nat)) :
    ∀ base : List Nat,
      prs.foldl (fun acc pr => if pr.2 ∈ acc then acc
        else if pr.1.test path then acc ++ [pr.2] else acc) base
      = base ++ regexStage path prs base := by
  induction prs with
  | nil =>
    intro base
    simp [regexStage]
  | cons pr rest ih =>
    intro base
    simp only [List.foldl_cons, regexStage]
    by_cases hm : pr.2 ∈ base
    · rw [if_pos hm, if_pos hm]
      exact ih base
    · rw [if_neg hm, if_neg hm]
      by_cases ht : pr.1.test path
      · rw [if_pos ht, if_pos ht, ih (base ++ [pr.2])]
        simp
      · rw [if_neg ht, if_neg ht]
        exact ih base

theorem regexStage_fresh (path : List Nat) (prs : List (RePat × Nat)) :
    ∀ seen : List Nat,
      (∀ h2 ∈ regexStage path prs seen, h2 ∉ seen) ∧ (regexStage path prs seen).Nodup := by
  induction prs with
  | nil =>
    intro seen
    simp [regexStage]
  | cons pr rest ih =>
    intro seen
    simp only [regexStage]
    by_cases hm : pr.2 ∈ seen
    · rw [if_pos hm]
      exact ih seen
    · rw [if_neg hm]
      by_cases ht : pr.1.test path
      · rw [if_pos ht]
        obtain ⟨ihmem, ihnd⟩ := ih (seen ++ [pr.2])
        constructor
        · intro h2 hh2
          rcases List.mem_cons.mp hh2 with rfl | hh2r
          · exact hm
          · intro hs
            exact ihmem h2 hh2r (by simp [hs])
        · refine List.nodup_cons.mpr ⟨?_, ihnd⟩
          intro hmem
          exact ihmem pr.2 hmem (by simp)
      · rw [if_neg ht]
        exact ih seen

/-- Validity of the resolution cache: every stored entry equals the pure
resolution for its path, the name being the one the parser derives from
the path. -/
def CacheOK (reg : Registry) (nameFn : List Nat → List Nat) (cache : Cache) : Prop :=
  ∀ p r, alookup cache p = some r → r = handlersCompute reg (nameFn p) p

theorem alookup_append_of_none {α : Type} (m1 m2 : List (List Nat × α)) (k : List Nat)
    (h : alookup m1 k = none) : alookup (m1 ++ m2) k = alookup m2 k := by
  induction m1 with
  | nil => simp
  | cons e rest ih =>
    simp only [alookup, List.cons_append] at h ⊢
    by_cases he : e.1 = k
    · rw [if_pos he] at h
      exact absurd h (by simp)
    · rw [if_neg he] at h ⊢
      exact ih h

theorem alookup_append_of_some {α : Type} (m1 m2 : List (List Nat × α)) (k : List Nat)
    (v : α) (h : alookup m1 k = some v) : alookup (m1 ++ m2) k = some v := by
  induction m1 with
  | nil => simp [alookup] at h
  | cons e rest ih =>
    simp only [alookup, List.cons_append] at h ⊢
    by_cases he : e.1 = k
    · rw [if_pos he] at h ⊢
      exact h
    · rw [if_neg he] at h ⊢
      exact ih h

/-- By-name and by-path sources of handler resolution, in that order. -/
def baseHandlers (reg : Registry) (name path : List Nat) : List Nat :=
  (alookup reg.dhd name).getD [] ++ (alookup reg.dhd path).getD []

/-- Claim C6 counterexample: registering the same handler reference under
the name f and under the exact path semicolon f makes resolution return
it twice; only the regex stage deduplicates. -/
theorem rtfC6_cex :
    handlersCompute (handleDestReg (handleDestReg (Registry.mk [] []) (DestKey.str [102]) 7)
      (DestKey.str [59, 102]) 7) [102] [59, 102] = some [7, 7] ∧
    ¬ ([7, 7] : List Nat).Nodup := by
  constructor
  · rfl
  · decide

/-- Claim C6 as amended: resolution merges the handlers registered by
exact name, then by exact path, then the regex-registered handlers whose
patterns match the path, in registration order; only the regex stage
deduplicates, skipping handlers already collected (so the regex suffix
has no duplicate and repeats nothing from the first two sources, while a
handler registered under both the name and the path appears twice).  An
empty merged list is resolved to the distinguished no-handlers value and
cached as such, and with a valid cache the cached resolution equals the
pure one, the cache staying valid, so hits and misses give the same
answer for a path and the name derived from it. -/
theorem rtfC6_thm (reg : Registry) (name path : List Nat) (cache : Cache)
    (nameFn : List Nat → List Nat) (hname : nameFn path = name)
    (hok : CacheOK reg nameFn cache) :
    (handlersCompute reg name path =
      (if baseHandlers reg name path ++ regexStage path reg.dhr (baseHandlers reg name path) = []
       then none
       else some (baseHandlers reg name path ++
         regexStage path reg.dhr (baseHandlers reg name path))))
    ∧ (regexStage path reg.dhr (baseHandlers reg name path)).Nodup
    ∧ (∀ h2 ∈ regexStage path reg.dhr (baseHandlers reg name path),
        h2 ∉ baseHandlers reg name path)
    ∧ (handlersCached reg cache name path).1 = handlersCompute reg name path
    ∧ CacheOK reg nameFn (handlersCached reg cache name path).2
    ∧ alookup (handlersCached reg cache name path).2 path =
        some (handlersCompute reg name path) := by
  refine ⟨?_, (regexStage_fresh path reg.dhr (baseHandlers reg name path)).2,
    (regexStage_fresh path reg.dhr (baseHandlers reg name path)).1, ?_⟩
  · unfold handlersCompute baseHandlers
    simp only [foldl_regexStage]
  · unfold handlersCached
    cases hc : alookup cache path with
    | some r =>
      have hr : r = handlersCompute reg name path := by
        rw [← hname]
        exact hok path r hc
      dsimp only
      refine ⟨hr, hok, ?_⟩
      rw [hc, hr]
    | none =>
      dsimp only
      refine ⟨rfl, ?_, ?_⟩
      · intro p r hpr
        cases hp : alookup cache p with
        | some v =>
          rw [alookup_append_of_some cache _ p v hp] at hpr
          have hv : v = r := by simpa using hpr
          rw [← hv]
          exact hok p v hp
        | none =>
          rw [alookup_append_of_none cache _ p hp] at hpr
          simp only [alookup] at hpr
          by_cases hpp : path = p
          · subst hpp
            rw [if_pos rfl] at hpr
            obtain rfl : handlersCompute reg name path = r := by simpa using hpr
            rw [hname]
          · rw [if_neg hpp] at hpr
            exact absurd hpr (by simp)
      · rw [alookup_append_of_none cache _ path hc]
        simp [alookup]

/-- Claim C6 witness: with a handler registered under the name f and a
different one under the path semicolon f, resolution through an empty
cache (a miss) returns the same result as the pure resolution. -/
theorem rtfC6_wit :
    (handlersCached (Registry.mk [([102], [7]), ([59, 102], [9])] []) [] [102] [59, 102]).1 =
      handlersCompute (Registry.mk [([102], [7]), ([59, 102], [9])] []) [102] [59, 102] :=
  (rtfC6_thm (Registry.mk [([102], [7]), ([59, 102], [9])] []) [102] [59, 102] []
    (fun _ => [102]) rfl (fun p r h => by simp [alookup] at h)).2.2.2.1

-- ====================================================================
-- Claim C4: per-token length accounting
-- ====================================================================

theorem mod256_lor_zero (a b : Nat) (ha : a % 256 = 0) : (a ||| b) % 256 = b % 256 := by
  rw [lor_mod256, ha]
  simp

theorem len_charTok (d1 d2 : Nat) :
    RtfTkLen (2 ^ 31 ||| (d1 * 2 ^ 19 ||| (d2 * 2 ^ 15 ||| 1796))) = 4 := by
  unfold RtfTkLen
  rw [mod256_lor_zero _ _ (by norm_num), mod256_lor_zero _ _ (by omega),
    mod256_lor_zero _ _ (by omega)]

theorem len_symbolTok (c : Nat) :
    RtfTkLen (2 ^ 31 ||| (shl32 (c + 32768) 15 ||| 1282)) = 2 := by
  unfold RtfTkLen
  rw [mod256_lor_zero _ _ (by norm_num),
    mod256_lor_zero _ _ (shl32_mod256 _ _ (by norm_num))]

theorem len_numTok (s : List Nat) (i n : Nat) :
    RtfTkLen (numTok s i n) = (scanNum s (1 + n) (i + 1 + n + 1)).1 % 256 := by
  unfold numTok RtfTkLen
  dsimp only
  cases hp : parseIntJS ((s.drop (i + 1 + n)).take
      ((scanNum s (1 + n) (i + 1 + n + 1)).2 - (i + 1 + n))) with
  | some v =>
    rw [mod256_lor_zero _ _ (by norm_num), mod256_lor_zero _ _ (js32_mul_pow15_mod256 _),
      mod256_lor_zero _ _ (shl32_mod256 _ _ (by norm_num)),
      mod256_lor_zero _ _ (by norm_num), mod32_mod256]
  | none =>
    rw [mod256_lor_zero _ _ (by norm_num),
      mod256_lor_zero _ _ (shl32_mod256 _ _ (by norm_num)),
      mod256_lor_zero _ _ (by norm_num), mod32_mod256]

theorem len_ctl_space (n : Nat) :
    RtfTkLen (shl32 (n + 2 - 3) 11 ||| (1536 ||| mod32 (n + 2))) = (n + 2) % 256 := by
  unfold RtfTkLen
  rw [mod256_lor_zero _ _ (shl32_mod256 _ _ (by norm_num)),
    mod256_lor_zero _ _ (by norm_num), mod32_mod256]

theorem len_ctl_plain (n : Nat) :
    RtfTkLen (shl32 (n + 1 - 2) 11 ||| (1536 ||| mod32 (n + 1))) = (n + 1) % 256 := by
  unfold RtfTkLen
  rw [mod256_lor_zero _ _ (shl32_mod256 _ _ (by norm_num)),
    mod256_lor_zero _ _ (by norm_num), mod32_mod256]

theorem len_crlfTok (x : Nat) :
    RtfTkLen (2 ^ 31 ||| (1074169088 ||| x)) = x % 256 := by
  unfold RtfTkLen
  rw [mod256_lor_zero _ _ (by norm_num), mod256_lor_zero _ _ (by norm_num)]

theorem len_dataTok (x : Nat) : RtfTkLen (256 ||| x) = x % 256 := by
  unfold RtfTkLen
  rw [mod256_lor_zero _ _ (by norm_num)]

/-- Per-token cursor accounting: from any position inside the source, the
token length either stays within the source, or overruns it by exactly
one byte, and then only for a truncated backslash escape at the very end
of the source. -/
theorem tok_len_bound (s : List Nat) (pos : Nat) (hp : pos < s.length) :
    pos + RtfTkLen (GetRtfTk s pos) ≤ s.length ∨
    (pos + RtfTkLen (GetRtfTk s pos) = s.length + 1 ∧ OvershootCond s) := by
  obtain ⟨c, hc⟩ := nth_of_lt hp
  simp only [GetRtfTk, hc]
  by_cases h123 : c = 123
  · left
    rw [if_pos h123]
    have : RtfTkLen 513 = 1 := by rfl
    omega
  · rw [if_neg h123]
    by_cases h125 : c = 125
    · left
      rw [if_pos h125]
      have : RtfTkLen 769 = 1 := by rfl
      omega
    · rw [if_neg h125]
      by_cases h92 : c = 92
      · -- backslash branch
        rw [if_pos h92]
        subst h92
        unfold backslashTok
        dsimp only
        by_cases hn : countLetters (s.drop (pos + 1)) = 0
        · rw [if_pos hn]
          cases hx1 : nth s (pos + 1) with
          | none =>
            dsimp only
            -- lone trailing backslash: the symbol return with a NaN value
            have hend : s.length = pos + 1 := by
              have := nth_none hx1
              omega
            right
            have hlen : RtfTkLen (2 ^ 31 ||| 1282) = 2 := by rfl
            refine ⟨by omega, Or.inl ?_⟩
            have he : s.length - 1 = pos := by omega
            rw [he]
            exact hc
          | some c1 =>
            dsimp only
            have hlt1 : pos + 1 < s.length := nth_lt hx1
            by_cases h42 : c1 = 42
            · left
              rw [if_pos h42]
              have : RtfTkLen 1026 = 2 := by rfl
              omega
            · rw [if_neg h42]
              by_cases h39 : c1 = 39
              · -- apostrophe: hex character escape
                rw [if_pos h39]
                unfold hexTok
                by_cases hg : s.length < pos + 1 + 2
                · -- fewer than two bytes remain past the apostrophe
                  rw [if_pos hg]
                  right
                  have hend : s.length = pos + 2 := by omega
                  have hlen : RtfTkLen (s.length - (pos + 1) + 2) = 3 := by
                    have h3 : s.length - (pos + 1) + 2 = 3 := by omega
                    rw [h3]
                    rfl
                  refine ⟨by omega, Or.inr (Or.inl ⟨?_, ?_⟩)⟩
                  · have he : s.length - 2 = pos := by omega
                    rw [he]
                    exact hc
                  · have he : s.length - 1 = pos + 1 := by omega
                    rw [he, hx1, h39]
                · rw [if_neg hg]
                  by_cases hend : pos + 1 + 2 = s.length
                  · -- the second hex digit read runs off the source
                    right
                    have hd2 : nth s (pos + 1 + 2) = none := nth_eq_none_of_le (by omega)
                    have hlen : ∀ t, t = 4 → pos + RtfTkLen t = s.length + 1 := by
                      intro t ht
                      rw [ht]
                      have : RtfTkLen 4 = 4 := by rfl
                      omega
                    have hcond : OvershootCond s := by
                      refine Or.inr (Or.inr ⟨?_, ?_⟩)
                      · have he : s.length - 3 = pos := by omega
                        rw [he]
                        exact hc
                      · have he : s.length - 2 = pos + 1 := by omega
                        rw [he, hx1, h39]
                    cases hd1 : (nth s (pos + 1 + 1)).bind hexVal with
                    | none => exact ⟨hlen _ rfl, hcond⟩
                    | some d1 =>
                      rw [hd2]
                      exact ⟨hlen _ rfl, hcond⟩
                  · -- both digit positions lie inside the source
                    left
                    have hin : pos + 1 + 2 < s.length := by omega
                    cases hd1 : (nth s (pos + 1 + 1)).bind hexVal with
                    | none =>
                      dsimp only
                      have : RtfTkLen 4 = 4 := by rfl
                      omega
                    | some d1 =>
                      dsimp only
                      cases hd2 : (nth s (pos + 1 + 2)).bind hexVal with
                      | none =>
                        dsimp only
                        have : RtfTkLen 4 = 4 := by rfl
                        omega
                      | some d2 =>
                        dsimp only
                        rw [len_charTok]
                        omega
              · -- ordinary one-character symbol
                rw [if_neg h39]
                left
                by_cases hcnd : c1 ≠ 92 ∧ c1 ≠ 45 ∧ c1 ≠ 58 ∧ c1 ≠ 95 ∧ c1 < 123 ∧ 126 < c1
                · rw [if_pos hcnd]
                  have : RtfTkLen 2 = 2 := by rfl
                  omega
                · rw [if_neg hcnd]
                  rw [len_symbolTok]
                  omega
        · -- control word: at least one lowercase letter follows
          rw [if_neg hn]
          have hnle : countLetters (s.drop (pos + 1)) ≤ s.length - (pos + 1) := by
            have h1 := countLetters_le (s.drop (pos + 1))
            have h2 : (s.drop (pos + 1)).length = s.length - (pos + 1) := by
              simp
            omega
          left
          cases hx2 : nth s (pos + 1 + countLetters (s.drop (pos + 1))) with
          | none =>
            dsimp only
            rw [len_ctl_plain]
            have := Nat.mod_le (countLetters (s.drop (pos + 1)) + 1) 256
            omega
          | some c2 =>
            dsimp only
            have hlt2 : pos + 1 + countLetters (s.drop (pos + 1)) < s.length := nth_lt hx2
            by_cases hdig : c2 = 45 ∨ (48 ≤ c2 ∧ c2 ≤ 57)
            · rw [if_pos hdig]
              rw [len_numTok]
              have hle := scanNum_le s (1 + countLetters (s.drop (pos + 1)))
                (pos + 1 + countLetters (s.drop (pos + 1)) + 1)
              have := Nat.mod_le (scanNum s (1 + countLetters (s.drop (pos + 1)))
                (pos + 1 + countLetters (s.drop (pos + 1)) + 1)).1 256
              omega
            · rw [if_neg hdig]
              by_cases hsp : c2 = 32
              · rw [if_pos hsp]
                rw [len_ctl_space]
                have := Nat.mod_le (countLetters (s.drop (pos + 1)) + 2) 256
                omega
              · rw [if_neg hsp]
                rw [len_ctl_plain]
                have := Nat.mod_le (countLetters (s.drop (pos + 1)) + 1) 256
                omega
      · rw [if_neg h92]
        by_cases hcr : c = 10 ∨ c = 13
        · -- CR or LF run
          left
          rw [if_pos hcr, len_crlfTok]
          have hb := scanCrlf_le (s.drop (pos + 1)) 1
          have hlen : (s.drop (pos + 1)).length = s.length - (pos + 1) := by
            simp
          have := Nat.mod_le (scanCrlf (s.drop (pos + 1)) 1) 256
          omega
        · -- data run
          left
          rw [if_neg hcr, len_dataTok]
          have hb := scanData_le (s.drop (pos + 1)) 1
          have hlen : (s.drop (pos + 1)).length = s.length - (pos + 1) := by
            simp
          have := Nat.mod_le (scanData (s.drop (pos + 1)) 1) 256
          omega

theorem rtfScanF_stall (s : List Nat) (pos : Nat)
    (h : RtfTkLen (GetRtfTk s pos) = 0) : ∀ f, rtfScanF f s pos = pos := by
  intro f
  induction f with
  | zero => rfl
  | succ f ih =>
    simp only [rtfScanF]
    split
    · rw [h, Nat.add_zero]
      exact ih
    · rfl

theorem rtfScanF_bound (s : List Nat) :
    ∀ f pos, pos ≤ s.length → s.length + 1 ≤ f + pos →
      (rtfScanF f s pos = s.length ∨
       (rtfScanF f s pos = s.length + 1 ∧ OvershootCond s) ∨
       (rtfScanF f s pos < s.length ∧ RtfTkLen (GetRtfTk s (rtfScanF f s pos)) = 0)) := by
  intro f
  induction f with
  | zero =>
    intro pos h1 h2
    omega
  | succ f ih =>
    intro pos h1 h2
    by_cases hlt : pos < s.length
    · simp only [rtfScanF]
      rw [if_pos hlt]
      by_cases hz : RtfTkLen (GetRtfTk s pos) = 0
      · right
        right
        rw [hz, Nat.add_zero, rtfScanF_stall s pos hz f]
        exact ⟨hlt, hz⟩
      · rcases tok_len_bound s pos hlt with hle | hov
        · exact ih (pos + RtfTkLen (GetRtfTk s pos)) hle (by omega)
        · right
          left
          rw [hov.1]
          refine ⟨?_, hov.2⟩
          cases f with
          | zero => rfl
          | succ f2 =>
            simp only [rtfScanF]
            rw [if_neg (by omega)]
    · simp only [rtfScanF]
      rw [if_neg hlt]
      left
      omega

/-- Claim C4 counterexample: scanning the one-byte source backslash, the
single token is a Symbol of length 2, so the cursor lands at offset 2,
one past the end of the source, and the token lengths sum to 2, not 1. -/
theorem rtfC4_cex :
    rtfScanF (List.length [92] + 1) [92] 0 = List.length [92] + 1 := by
  rfl

/-- Claim C4 as amended: scanning from offset 0 and advancing by each
token's stored length, the cursor lands exactly on the end of the source,
except that (i) it lands exactly one byte past the end when the final
token is a truncated backslash escape (the source ends with a lone
backslash, with backslash apostrophe, or with backslash apostrophe and a
single further byte), and (ii) the scan stalls strictly inside the source
when it meets a token whose stored eight-bit length is zero (a control
word whose total length is a multiple of 256), where the JavaScript loop
never terminates. -/
theorem rtfC4_thm (s : List Nat) :
    rtfScanF (s.length + 1) s 0 = s.length ∨
    (rtfScanF (s.length + 1) s 0 = s.length + 1 ∧ OvershootCond s) ∨
    (rtfScanF (s.length + 1) s 0 < s.length ∧
      RtfTkLen (GetRtfTk s (rtfScanF (s.length + 1) s 0)) = 0) :=
  rtfScanF_bound s (s.length + 1) 0 (by omega) (by omega)
